import Mathlib

/-!
Verification of the expression/symbol subsystem of the loki source-to-source
compiler (`loki/expression/symbol_types.py`).

The Python classes are shallowly embedded as Lean definitions:
* expression nodes become the inductive `Expr`; the Python value `None`, as
  it occurs in child positions (absent parent/initial/dimensions/bounds), is
  embedded as the constructor `Expr.noneE`;
* `SymbolType` objects live in an explicit heap (`State.types`), so that
  Python object *identity* is a heap index (`Nat`) and object *equality* is
  equality of the stored `SymbolTypeVal`;
* scopes (symbol tables from `loki.types`, which is not among the sources)
  live in `State.scopes`; a discarded scope is a `none` slot, which models
  the `weakref` behaviour of `Scalar._scope` / `Array._scope`;
* Python methods that can raise become `Option`-valued functions (`none`
  models an exception escaping the call).
-/

namespace LokiSym

/-- The `DataType` enum from `loki.types` (only its member names are needed;
they appear verbatim in `symbol_types.py`). -/
inductive DataType where
  | INTEGER
  | REAL
  | LOGICAL
  | CHARACTER
  | DERIVED_TYPE
  | DEFERRED
deriving DecidableEq, Repr

/-- Tag distinguishing the `Range` subclasses (`Range`, `RangeIndex`,
`LoopRange`); they share `Range.__init__` and differ only in their
`mapper_method` dispatch key. -/
inductive RangeTag where
  | plain
  | index
  | loop
deriving DecidableEq, Repr

/-- Expression nodes of `symbol_types.py` that the claims touch.

* `noneE` embeds the Python value `None` where it can stand in a child
  position (absent parent, initial, dimensions, range bound).
* `scalar name scope parent initial` embeds `Scalar`: the node stores its
  name, a (non-owning) reference to its scope, `parent` and `initial` —
  and deliberately no type value (`Scalar.type` is a property reading the
  scope's table).
* `array` additionally stores `dimensions` (an `ArraySubscript` wrapper when
  normalised by `Array.__init__`).
* the literal constructors mirror `IntLiteral` (stores `int(value)`),
  `FloatLiteral` (stores `str(value)`, the textual form), `LogicLiteral`,
  `StringLiteral` (stores the quote-stripped text).
* `rangeE` embeds `Range`/`RangeIndex`/`LoopRange` with its three children.
* `arraySubscript` embeds `ArraySubscript`.

Structural equality of nodes is `Expr` equality: two nodes are equal iff
they are the same variant with equal reconstruction arguments, which is
pymbolic's `(class, __getinitargs__)` notion of equality for these nodes. -/
inductive Expr where
  | noneE
  | scalar (name : String) (scope : Nat) (parent : Expr) (initial : Expr)
  | array (name : String) (scope : Nat) (parent : Expr)
      (dimensions : Expr) (initial : Expr)
  | intLit (value : Int) (kind : Option String)
  | floatLit (value : String) (kind : Option String)
  | logicLit (value : Bool)
  | stringLit (value : String)
  | rangeE (tag : RangeTag) (lower : Expr) (upper : Expr) (step : Expr)
  | arraySubscript (index : Expr)
deriving DecidableEq, Repr

/-- `Range.__init__` (shared by `RangeIndex` and `LoopRange` through
inheritance): asserts that two or three children are given and pads a
2-tuple with `None` as step.  `none` models the failed `assert`. -/
def rangeInit (tag : RangeTag) (children : List Expr) : Option Expr :=
  match children with
  | [l, u] => some (.rangeE tag l u .noneE)
  | [l, u, s] => some (.rangeE tag l u s)
  | _ => none

/-- `StringLiteral.__init__`: strips one matching pair of quote characters;
`value[0]` raises `IndexError` on the empty string (modelled by `none`). -/
def stringLiteralInit (value : String) : Option Expr :=
  match value.data with
  | [] => none
  | c :: rest =>
      -- `value[0] == value[-1] and value[0] in '"\''`; `value[1:-1]` strips
      -- the first and last characters
      if c = rest.getLastD c ∧ (c = '"' ∨ c = '\'') then
        some (.stringLit ⟨rest.dropLast⟩)
      else
        some (.stringLit value)

/-- A raw Python value handed to the `Literal` factory.  A Python `float` is
carried by its `str()` rendering (the code never treats it numerically:
`FloatLiteral` stores `str(value)`). -/
inductive PyVal where
  | pint (i : Int)
  | pbool (b : Bool)
  | pfloat (text : String)
  | pstr (s : String)
deriving DecidableEq, Repr

/-- Python's `str()` on the raw value. -/
def PyVal.pyStr : PyVal → String
  | .pint i => toString i
  | .pbool b => if b then "True" else "False"
  | .pfloat t => t
  | .pstr s => s

/-- Python's `str.lower()` (characters relevant here are basic latin, on
which `Char.toLower` agrees with Python). -/
def pyLower (s : String) : String := ⟨s.data.map Char.toLower⟩

/-- The native-kind inference of `Literal._from_literal` when no explicit
`type` is supplied.  Note `isinstance(True, int)` holds in Python, so
booleans hit the integer branch before the keyword test is consulted. -/
def inferDataType : PyVal → DataType
  | .pint _ => .INTEGER
  | .pbool _ => .INTEGER
  | .pfloat _ => .REAL
  | .pstr s =>
      if pyLower s ∈ [".true.", "true", ".false.", "false"] then .LOGICAL
      else .CHARACTER

/-- `IntLiteral.__init__`: stores `int(value)`; `int(True) = 1`,
`int(False) = 0`; for a string, Python's `int()` parse (`none` models the
raised `ValueError`).  The float case is unreachable without an explicit
type tag and is not modelled. -/
def intLiteralInit (v : PyVal) (kind : Option String) : Option Expr :=
  match v with
  | .pint i => some (.intLit i kind)
  | .pbool b => some (.intLit (if b then 1 else 0) kind)
  | .pstr s => (s.toInt?).map (fun i => .intLit i kind)
  | .pfloat _ => none

/-- `LogicLiteral.__init__`: `value.lower() in ('true', '.true.')`; raises
(`none`) unless the value is a string. -/
def logicLiteralInit (v : PyVal) : Option Expr :=
  match v with
  | .pstr s => some (.logicLit (pyLower s ∈ ["true", ".true."]))
  | _ => none

/-- `Literal._from_literal` on the inference path (no explicit `type` tag,
which is the path all of the spec's classification examples exercise): pick
the literal class by the inferred `DataType` and construct it. -/
def literalClassify (v : PyVal) (kind : Option String) : Option Expr :=
  match inferDataType v with
  | .INTEGER => intLiteralInit v kind
  | .REAL => some (.floatLit v.pyStr kind)
  | .LOGICAL => logicLiteralInit v
  | .CHARACTER =>
      match v with
      | .pstr s => stringLiteralInit s
      | _ => none
  | _ => none

/-- The value of a `SymbolType` object (`loki.types.SymbolType`, whose module
is not among the sources).  Modelled from the spec: `dtype`, an optional
numeric-kind tag, a `shape` (list of dimension expressions, empty for
scalars), a `parent` (owning derived-type instance variable or `None`), and
— for derived types — an ordered name-to-variable map `variables`.
`SymbolType.clone` is a value copy with field overrides, so an object's
*identity* is its index in `State.types` while its *equality* is equality of
this structure. -/
structure SymbolTypeVal where
  dtype : DataType
  kind : Option String := none
  shape : List Expr := []
  parent : Expr := .noneE
  /-- the Python attribute `variables` (`variables` is a reserved word in
  Lean, hence the shorter field name) -/
  vars : List (String × Expr) := []
deriving DecidableEq, Repr

/-- A scope's symbol table (`loki.types`, not among the sources).  Modelled
from the spec: an ordered mapping from name to type descriptor; the entries
reference `SymbolType` objects in the heap by index. -/
structure ScopeVal where
  table : List (String × Nat)
deriving DecidableEq, Repr

/-- Ordered-map lookup (the absence-tolerant access used by
`scope.lookup`): value of the first entry with the given key. -/
def odLookup : List (String × α) → String → Option α
  | [], _ => none
  | p :: ps, k => if p.1 = k then some p.2 else odLookup ps k

/-- `OrderedDict` assignment `m[k] = v`: replaces the first entry with the
key in place (keeping its position), else appends. -/
def odSet : List (String × α) → String → α → List (String × α)
  | [], k, v => [(k, v)]
  | p :: ps, k, v => if p.1 = k then (k, v) :: ps else p :: odSet ps k v

/-- Non-recursive lookup in a scope's own table.  Modelled from the spec:
"non-recursive searches only this scope's table"; lookups of undeclared
names return an absent result instead of failing. -/
def ScopeVal.lookup (sc : ScopeVal) (n : String) : Option Nat := odLookup sc.table n

/-- `scope.setdefault(name, type)`: insert only if absent (spec:
"insert-if-absent"). -/
def ScopeVal.setdefault (sc : ScopeVal) (n : String) (t : Nat) : ScopeVal :=
  if (sc.lookup n).isSome then sc else ⟨sc.table ++ [(n, t)]⟩

/-- `scope[name] = type`: insert or overwrite (spec: "overwrite"). -/
def ScopeVal.assign (sc : ScopeVal) (n : String) (t : Nat) : ScopeVal :=
  ⟨odSet sc.table n t⟩

/-- The mutable world: the heap of `SymbolType` objects and the scope slots.
A `none` scope slot is a scope that its owner has discarded (the referent of
the node's `weakref` is gone). -/
structure State where
  types : List SymbolTypeVal
  scopes : List (Option ScopeVal)
deriving DecidableEq, Repr

/-- Dereference a scope slot: `none` when the scope was discarded or the
index is not a scope. -/
def getScope (st : State) (s : Nat) : Option ScopeVal :=
  (st.scopes.get? s).join

def isAlive (st : State) (s : Nat) : Bool := (getScope st s).isSome

def setScope (st : State) (s : Nat) (sc : ScopeVal) : State :=
  { st with scopes := st.scopes.set s (some sc) }

/-- The owner of scope `s` releases it: the node-side `weakref`s now
dereference to `None`. -/
def discardScope (st : State) (s : Nat) : State :=
  { st with scopes := st.scopes.set s none }

def getType (st : State) (t : Nat) : Option SymbolTypeVal := st.types.get? t

/-- Allocate a fresh `SymbolType` object (e.g. `SymbolType(...)` or
`type.clone(...)`): a new identity holding the given value. -/
def allocType (st : State) (v : SymbolTypeVal) : Nat × State :=
  (st.types.length, { st with types := st.types ++ [v] })

def setTypeVal (st : State) (t : Nat) (v : SymbolTypeVal) : State :=
  { st with types := st.types.set t v }

/-- The table entry `scope.lookup(name)` reached through a scope reference;
`none` both when the scope is dead and when the name is absent (callers that
distinguish the two check `isAlive` separately). -/
def tableEntry (st : State) (s : Nat) (n : String) : Option Nat :=
  (getScope st s).bind (fun sc => sc.lookup n)

/-- `node.name` for bound symbols (`Scalar`/`Array`); `none` models the
`AttributeError` on any other object. -/
def nameOf : Expr → Option String
  | .scalar n _ _ _ => some n
  | .array n _ _ _ _ => some n
  | _ => none

/-- The raw (weak) scope reference stored in a bound symbol. -/
def scopeRefOf : Expr → Option Nat
  | .scalar _ s _ _ => some s
  | .array _ s _ _ _ => some s
  | _ => none

/-- The `.scope` property: dereferences the weakref, yielding the scope
object or `None`; the outer `Option` is `none` for objects that are not
bound symbols (`AttributeError`). -/
def scopeProp (st : State) (e : Expr) : Option (Option ScopeVal) :=
  (scopeRefOf e).map (fun s => getScope st s)

/-- The `.scope` value *as an object* for identity comparison (`!=` between
scope objects): a live scope is its reference, a dead one is `None`.  Two
results are the same Python object precisely when they are equal here. -/
def scopeObjOf (st : State) (e : Expr) : Option (Option Nat) :=
  (scopeRefOf e).map (fun s => if isAlive st s then some s else none)

/-- `node.basename`: the suffix after the last `%` (`name.rfind('%')` plus
slicing; the whole name when no `%` occurs). -/
def basenameStr (n : String) : String :=
  ⟨(n.data.reverse.takeWhile (fun c => c ≠ '%')).reverse⟩

def basenameOf (e : Expr) : Option String := (nameOf e).map basenameStr

/-- The `type` property getter: `self.scope.lookup(self.name)`.  The outer
`Option` is `none` when the attribute access raises (dead scope — `None`
has no `lookup` — or not a bound symbol); the inner one is the table's
answer. -/
def typeGet (st : State) (e : Expr) : Option (Option Nat) :=
  match e with
  | .scalar n s _ _ => (getScope st s).map (fun sc => sc.lookup n)
  | .array n s _ _ _ => (getScope st s).map (fun sc => sc.lookup n)
  | _ => none

/-- The `type` property setter: `self.scope[self.name] = value`. -/
def typeSet (st : State) (e : Expr) (t : Nat) : Option State :=
  match e with
  | .scalar n s _ _ =>
      (getScope st s).map (fun sc => setScope st s (sc.assign n t))
  | .array n s _ _ _ =>
      (getScope st s).map (fun sc => setScope st s (sc.assign n t))
  | _ => none

/-- The shared type-registration step of `Scalar.__init__` and
`Array.__init__`:
* no explicit type: `scope.setdefault(name, SymbolType(DEFERRED))` — a fresh
  `DEFERRED` object is inserted only if the name is absent;
* explicit type identical (`is`) to the current entry: no update;
* otherwise: `self.type = type.clone()` — the entry is overwritten with a
  fresh clone of the given object. -/
def registerType (st : State) (name : String) (scope : Nat) (type? : Option Nat) :
    Option State :=
  match getScope st scope with
  | none => none
  | some sc =>
      match type? with
      | none =>
          if (sc.lookup name).isSome then some st
          else
            let a := allocType st { dtype := .DEFERRED }
            match getScope a.2 scope with
            | none => none
            | some sc₁ => some (setScope a.2 scope (sc₁.setdefault name a.1))
      | some t =>
          if sc.lookup name = some t then some st
          else
            match getType st t with
            | none => none
            | some tv =>
                let a := allocType st tv
                match getScope a.2 scope with
                | none => none
                | some sc₁ => some (setScope a.2 scope (sc₁.assign name a.1))

/-- `Scalar.__init__(name, scope, type, parent, initial)`. -/
def scalarInit (st : State) (name : String) (scope : Nat) (type? : Option Nat)
    (parent : Expr) (initial : Expr) : Option (Expr × State) :=
  (registerType st name scope type?).map
    (fun st' => (.scalar name scope parent initial, st'))

def isArraySubscriptE : Expr → Bool
  | .arraySubscript _ => true
  | _ => false

/-- `Array.__init__`'s dimension normalisation: a non-`None` value that is
not already an `ArraySubscript` is wrapped in one. -/
def wrapDims : Expr → Expr
  | .noneE => .noneE
  | d => if isArraySubscriptE d then d else .arraySubscript d

/-- `Array.__init__(name, scope, type, parent, dimensions, initial)`. -/
def arrayInit (st : State) (name : String) (scope : Nat) (type? : Option Nat)
    (parent : Expr) (dimensions : Expr) (initial : Expr) : Option (Expr × State) :=
  (registerType st name scope type?).map
    (fun st' => (.array name scope parent (wrapDims dimensions) initial, st'))

/-- The member-rebuilding loop of `Variable.instantiate_derived_type_variables`,
parameterised by the recursive factory call `vnew` (which receives name,
scope and explicit type, the only arguments the loop passes):

    for k, v in variables.items():
        vtype = v.type.clone(parent=obj)
        vname = '%s%%%s' % (obj.name, v.basename)
        obj.type.variables[k] = Variable(name=vname, scope=obj.scope, type=vtype)
-/
def expandMembersF (vnew : State → String → Nat → Option Nat → Option (Expr × State))
    (obj : Expr) : List (String × Expr) → State → Option (Expr × State)
  | [], st => some (obj, st)
  | (k, v) :: rest, st =>
      match typeGet st v with
      | none => none                        -- `v.type` raises
      | some none => none                   -- `None.clone()` raises
      | some (some vt) =>
          match getType st vt with
          | none => none
          | some vtv =>
              let a := allocType st { vtv with parent := obj }
              match nameOf obj, scopeRefOf obj, basenameOf v with
              | some onm, some os, some b =>
                  (match vnew a.2 (onm ++ "%" ++ b) os (some a.1) with
                   | none => none
                   | some (nv, st₂) =>
                       match typeGet st₂ obj with
                       | some (some tr₂) =>
                           match getType st₂ tr₂ with
                           | none => none
                           | some tv₂ =>
                               expandMembersF vnew obj rest
                                 (setTypeVal st₂ tr₂ { tv₂ with vars := odSet tv₂.vars k nv })
                       | _ => none)
              | _, _, _ => none

/-- `Variable.instantiate_derived_type_variables(obj)`, parameterised by the
recursive factory call: if `obj`'s type is a derived type whose member
variables refer to a different scope than `obj`'s own, replace the type's
entry by a clone with an empty member map and rebuild every member bound to
`obj`'s scope; otherwise return `obj` untouched. -/
def instantiateF (vnew : State → String → Nat → Option Nat → Option (Expr × State))
    (st : State) (obj : Expr) : Option (Expr × State) :=
  match typeGet st obj with
  | none => none
  | some none => some (obj, st)            -- `obj.type is None`: skip
  | some (some tr) =>
      match getType st tr with
      | none => none
      | some tv =>
          if tv.dtype = .DERIVED_TYPE then
            match tv.vars with
            | [] => some (obj, st)         -- falsy `obj.type.variables`: skip
            | (_, v₀) :: _ =>
                match scopeObjOf st v₀, scopeObjOf st obj with
                | some mo, some oo =>
                    if mo ≠ oo then
                      -- obj.type = obj.type.clone(variables=OrderedDict())
                      let a := allocType st { tv with vars := [] }
                      match typeSet a.2 obj a.1 with
                      | none => none
                      | some st₂ => expandMembersF vnew obj tv.vars st₂
                    else some (obj, st)
                | _, _ => none
          else some (obj, st)

/-- `Variable.__new__`: resolve the effective type (explicit argument or
`scope.lookup(name)`), choose `Scalar` when no dimensions are given and the
resolved shape is empty (or the type absent), else `Array`, then run the
derived-type member expansion on the result.

The `fuel` argument bounds the derived-type nesting depth the expansion may
recurse through (the Python original recurses without a bound; exhausted
fuel yields `none`, never a wrong value). -/
def variableNew : Nat → State → String → Nat → Option Nat → Expr → Expr → Expr →
    Option (Expr × State)
  | 0, _, _, _, _, _, _, _ => none
  | f + 1, st, name, scope, type?, dims, parent, initial =>
      match getScope st scope with
      | none => none
      | some sc =>
          -- kwargs.setdefault('type', scope.lookup(name))
          let t : Option Nat :=
            match type? with
            | some tr => some tr
            | none => sc.lookup name
          -- shape = _type.shape if _type is not None else None
          match (match t with
                 | none => some true
                 | some tr => (getType st tr).map (fun tv : SymbolTypeVal => tv.shape.isEmpty)) with
          | none => none
          | some shapeEmpty =>
              match (if dims = Expr.noneE ∧ shapeEmpty then
                       scalarInit st name scope t parent initial
                     else
                       arrayInit st name scope t parent dims initial) with
              | none => none
              | some (obj, st₁) =>
                  instantiateF
                    (fun st' n s t' => variableNew f st' n s t' .noneE .noneE .noneE)
                    st₁ obj

/-- The recursive factory call as the expansion performs it
(`Variable(name=vname, scope=obj.scope, type=vtype)` — no dimensions,
parent or initial argument). -/
def variableNewSimple (fuel : Nat) (st : State) (n : String) (s : Nat)
    (t : Option Nat) : Option (Expr × State) :=
  variableNew fuel st n s t .noneE .noneE .noneE

/-- `Variable.instantiate_derived_type_variables` itself (the classmethod the
factory runs on every constructed node). -/
def instantiateDTV (fuel : Nat) (st : State) (obj : Expr) : Option (Expr × State) :=
  instantiateF (variableNewSimple fuel) st obj

/-- `Scalar.clone()` / `Array.clone()` with no overrides: carry every truthy
field into the keyword arguments and re-derive the node through the
`Variable` factory.  A falsy name is not carried, so the factory's
`kwargs['name']` raises (`none`); a dead scope makes the `self.type` access
raise.  The current table entry is passed as the explicit `type`, so it is
identical to the scope's entry and the table is not rewritten. -/
def cloneVar (fuel : Nat) (st : State) (v : Expr) : Option (Expr × State) :=
  match v with
  | .scalar name scope parent initial =>
      (match getScope st scope with
       | none => none
       | some sc =>
           if name = "" then none
           else variableNew fuel st name scope (sc.lookup name) .noneE parent initial)
  | .array name scope parent dims initial =>
      (match getScope st scope with
       | none => none
       | some sc =>
           if name = "" then none
           else variableNew fuel st name scope (sc.lookup name) dims parent initial)
  | _ => none

/-- A node is a bound symbol attached to scope `os` (a `Scalar` or an
`Array` whose weak scope reference is `os`). -/
def BoundTo (os : Nat) (e : Expr) : Prop :=
  (∃ n p i, e = Expr.scalar n os p i) ∨ (∃ n p d i, e = Expr.array n os p d i)

/-- A node is the bound symbol `(name, scope)` with arbitrary remaining
fields. -/
def BoundAs (n : String) (s : Nat) (e : Expr) : Prop :=
  (∃ p i, e = Expr.scalar n s p i) ∨ (∃ p d i, e = Expr.array n s p d i)

/-- The effective type of `Variable.__new__`: the explicit `type` argument
if given, else the scope's current entry for the name. -/
def resolvedTypeRef (st : State) (s : Nat) (n : String) (t? : Option Nat) : Option Nat :=
  match t? with
  | some tr => some tr
  | none => tableEntry st s n

/-- `not shape` of the effective type in `Variable.__new__`: true when the
type is absent or its shape is the empty list. -/
def resolvedShapeEmpty (st : State) (s : Nat) (n : String) (t? : Option Nat) : Bool :=
  match resolvedTypeRef st s n t? with
  | none => true
  | some tr =>
      match getType st tr with
      | some tv => tv.shape.isEmpty
      | none => true

/-- The behaviour contract of a factory callback as the member expansion
uses it: on success the returned node is the requested `(name, scope)`
symbol, scope liveness is untouched, table entries under strictly shorter
names are untouched, and pre-existing `SymbolType` objects are untouched
(the heap only grows). -/
def VNewOK (vnew : State → String → Nat → Option Nat → Option (Expr × State)) : Prop :=
  ∀ st n s t v st', vnew st n s t = some (v, st') →
    BoundAs n s v ∧
    (∀ s', isAlive st' s' = isAlive st s') ∧
    (∀ s' k, k.length < n.length → tableEntry st' s' k = tableEntry st s' k) ∧
    (∀ io, io < st.types.length → getType st' io = getType st io) ∧
    st.types.length ≤ st'.types.length

/-- Whether a bound symbol's variant agrees with the Variable factory's
dispatch rule for its current table entry and stored dimensions — the state
every factory-constructed, unmutated node is in: a `Scalar` whose resolved
shape is empty, or an `Array` whose dimensions are already an
`ArraySubscript`, or a dimension-less `Array` whose type's shape is
non-empty. -/
def variantConsistent (st : State) (v : Expr) : Bool :=
  match v with
  | .scalar n s _ _ => resolvedShapeEmpty st s n (tableEntry st s n)
  | .array n s _ d _ =>
      isArraySubscriptE d ||
        (decide (d = Expr.noneE) && !(resolvedShapeEmpty st s n (tableEntry st s n)))
  | _ => false

/-- Example world: one scope holding `"x"` with a fresh `DEFERRED` entry
(the result of constructing `"x"` in an empty scope). -/
def exDeferred : State :=
  { types := [{ dtype := .DEFERRED }], scopes := [some ⟨[("x", 0)]⟩] }

/-- Example world: a type-definition scope `0` holding member `"x"`
(`INTEGER`, object `0`) and a unit scope `1` holding `"d"` of the derived
type (object `1`) whose member variable is still bound to scope `0`. -/
def exDerived : State :=
  { types := [{ dtype := .INTEGER },
      { dtype := .DERIVED_TYPE, vars := [("x", Expr.scalar "x" 0 .noneE .noneE)] }],
    scopes := [some ⟨[("x", 0)]⟩, some ⟨[("d", 1)]⟩] }

/-- The world `exDerived` after expanding the members of `d`: the table
entry of `"d"` was replaced by a clone (object `2`) whose member map holds
`d%x` bound to scope `1`, `d%x` was registered in scope `1` (object `4`, a
clone of the member type cloned with `parent := d`). -/
def exDerivedExpanded : State :=
  { types := [{ dtype := .INTEGER },
      { dtype := .DERIVED_TYPE, vars := [("x", Expr.scalar "x" 0 .noneE .noneE)] },
      { dtype := .DERIVED_TYPE, vars := [("x", Expr.scalar "d%x" 1 .noneE .noneE)] },
      { dtype := .INTEGER, parent := Expr.scalar "d" 1 .noneE .noneE },
      { dtype := .INTEGER, parent := Expr.scalar "d" 1 .noneE .noneE }],
    scopes := [some ⟨[("x", 0)]⟩, some ⟨[("d", 2), ("d%x", 4)]⟩] }

/-- Example world: one scope holding `"a"` with a scalar `INTEGER` entry. -/
def exIntScalar : State :=
  { types := [{ dtype := .INTEGER }], scopes := [some ⟨[("a", 0)]⟩] }

/-! ## General helper lemmas -/

theorem odLookup_odSet_self (m : List (String × α)) (k : String) (v : α) :
    odLookup (odSet m k v) k = some v := by
  induction m with
  | nil => simp [odSet, odLookup]
  | cons p ps ih =>
      by_cases h : p.1 = k
      · simp [odSet, h, odLookup]
      · simp [odSet, h, odLookup, ih]

theorem odLookup_odSet_ne (m : List (String × α)) (k k' : String) (v : α)
    (h : k' ≠ k) : odLookup (odSet m k v) k' = odLookup m k' := by
  induction m with
  | nil => simp [odSet, odLookup, Ne.symm h]
  | cons p ps ih =>
      by_cases hp : p.1 = k
      · simp [odSet, hp, odLookup, Ne.symm h]
      · simp [odSet, hp, odLookup, ih]

theorem odLookup_append_single_ne (m : List (String × α)) (k k' : String)
    (v : α) (h : k' ≠ k) :
    odLookup (m ++ [(k, v)]) k' = odLookup m k' := by
  induction m with
  | nil => simp [odLookup, Ne.symm h]
  | cons p ps ih =>
      simp only [List.cons_append, odLookup, List.append_eq]
      rw [ih]

theorem odLookup_append_single_absent (m : List (String × α)) (k : String)
    (v : α) (h : odLookup m k = none) :
    odLookup (m ++ [(k, v)]) k = some v := by
  induction m with
  | nil => simp [odLookup]
  | cons p ps ih =>
      by_cases hp : p.1 = k
      · simp [odLookup, hp] at h
      · simp only [odLookup, if_neg hp] at h
        simp only [List.cons_append, odLookup, if_neg hp]
        exact ih h

theorem odSet_values (m : List (String × α)) (k : String) (v : α) :
    ∀ p ∈ odSet m k v, p.2 = v ∨ p ∈ m := by
  induction m with
  | nil => intro p hp; simp [odSet] at hp; simp [hp]
  | cons q qs ih =>
      intro p hp
      by_cases hq : q.1 = k
      · simp only [odSet, if_pos hq, List.mem_cons] at hp
        rcases hp with h | h
        · simp [h]
        · exact Or.inr (List.mem_cons_of_mem _ h)
      · simp only [odSet, if_neg hq, List.mem_cons] at hp
        rcases hp with h | h
        · exact Or.inr (by simp [h])
        · rcases ih p h with h' | h'
          · exact Or.inl h'
          · exact Or.inr (List.mem_cons_of_mem _ h')

theorem odSet_ne_nil (m : List (String × α)) (k : String) (v : α) :
    odSet m k v ≠ [] := by
  cases m with
  | nil => simp [odSet]
  | cons p ps =>
      by_cases hp : p.1 = k <;> simp [odSet, hp]

theorem getLastD_append_single (mid : List Char) (q d : Char) :
    (mid ++ [q]).getLastD d = q := by
  induction mid generalizing d with
  | nil => rfl
  | cons c cs ih => rw [List.cons_append, List.getLastD_cons]; exact ih c

theorem dropLast_append_single (mid : List Char) (q : Char) :
    (mid ++ [q]).dropLast = mid := by
  simp

theorem getScope_some_lt (st : State) (s : Nat) (sc : ScopeVal)
    (h : getScope st s = some sc) : s < st.scopes.length := by
  unfold getScope at h
  by_contra hlt
  rw [List.get?_eq_none.2 (by omega)] at h
  simp at h

theorem getScope_setScope_self (st : State) (s : Nat) (sc0 sc : ScopeVal)
    (h : getScope st s = some sc0) : getScope (setScope st s sc) s = some sc := by
  have hlt := getScope_some_lt st s sc0 h
  unfold getScope setScope
  rw [List.get?_set_eq_of_lt _ hlt]
  rfl

theorem getScope_setScope_ne (st : State) (s : Nat) (sc : ScopeVal) (s' : Nat)
    (h : s' ≠ s) : getScope (setScope st s sc) s' = getScope st s' := by
  unfold getScope setScope
  rw [List.get?_set_ne _ _ (fun hh => h hh.symm)]

theorem isAlive_setScope (st : State) (s : Nat) (sc : ScopeVal) (sc0 : ScopeVal)
    (h : getScope st s = some sc0) :
    ∀ s', isAlive (setScope st s sc) s' = isAlive st s' := by
  intro s'
  by_cases hs : s' = s
  · subst hs
    unfold isAlive
    rw [getScope_setScope_self st s' sc0 sc h, h]
    rfl
  · unfold isAlive
    rw [getScope_setScope_ne st s sc s' hs]

theorem getScope_allocType (st : State) (v : SymbolTypeVal) (s : Nat) :
    getScope (allocType st v).2 s = getScope st s := rfl

theorem tableEntry_allocType (st : State) (v : SymbolTypeVal) (s : Nat) (k : String) :
    tableEntry (allocType st v).2 s k = tableEntry st s k := rfl

theorem isAlive_allocType (st : State) (v : SymbolTypeVal) (s : Nat) :
    isAlive (allocType st v).2 s = isAlive st s := rfl

theorem getType_allocType_lt (st : State) (v : SymbolTypeVal) (io : Nat)
    (h : io < st.types.length) : getType (allocType st v).2 io = getType st io := by
  unfold getType allocType
  exact List.get?_append h

theorem getType_allocType_fresh (st : State) (v : SymbolTypeVal) :
    getType (allocType st v).2 st.types.length = some v := by
  unfold getType allocType
  exact List.get?_concat_length _ _

theorem getType_setScope (st : State) (s : Nat) (sc : ScopeVal) (io : Nat) :
    getType (setScope st s sc) io = getType st io := rfl

theorem getType_setTypeVal_self (st : State) (t : Nat) (v : SymbolTypeVal)
    (h : t < st.types.length) : getType (setTypeVal st t v) t = some v := by
  unfold getType setTypeVal
  exact List.get?_set_eq_of_lt _ h

theorem getType_setTypeVal_ne (st : State) (t : Nat) (v : SymbolTypeVal) (io : Nat)
    (h : io ≠ t) : getType (setTypeVal st t v) io = getType st io := by
  unfold getType setTypeVal
  exact List.get?_set_ne _ _ (fun hh => h hh.symm)

theorem tableEntry_setTypeVal (st : State) (t : Nat) (v : SymbolTypeVal)
    (s : Nat) (k : String) : tableEntry (setTypeVal st t v) s k = tableEntry st s k := rfl

theorem isAlive_setTypeVal (st : State) (t : Nat) (v : SymbolTypeVal) (s : Nat) :
    isAlive (setTypeVal st t v) s = isAlive st s := rfl

theorem length_setTypeVal (st : State) (t : Nat) (v : SymbolTypeVal) :
    (setTypeVal st t v).types.length = st.types.length := by
  unfold setTypeVal
  exact List.length_set _ _ _

theorem tableEntry_setScope_self (st : State) (s : Nat) (sc0 sc : ScopeVal)
    (h : getScope st s = some sc0) (k : String) :
    tableEntry (setScope st s sc) s k = sc.lookup k := by
  unfold tableEntry
  rw [getScope_setScope_self st s sc0 sc h]
  rfl

theorem tableEntry_setScope_ne (st : State) (s : Nat) (sc : ScopeVal) (s' : Nat)
    (k : String) (h : s' ≠ s) :
    tableEntry (setScope st s sc) s' k = tableEntry st s' k := by
  unfold tableEntry
  rw [getScope_setScope_ne st s sc s' h]

theorem tableEntry_of_getScope (st : State) (s : Nat) (sc : ScopeVal)
    (h : getScope st s = some sc) (k : String) :
    tableEntry st s k = sc.lookup k := by
  unfold tableEntry
  rw [h]
  rfl

/-! ## Specification of `registerType` (the shared `__init__` type logic) -/

/-- What `Scalar.__init__`/`Array.__init__` do to the world, whatever the
branch: scope liveness is untouched, table entries other than `(scope,
name)` are untouched, pre-existing `SymbolType` objects are untouched, the
heap only grows, and afterwards the scope has an entry for the name. -/
theorem registerType_spec (st : State) (n : String) (s : Nat) (t? : Option Nat)
    (st' : State) (h : registerType st n s t? = some st') :
    isAlive st s = true ∧
    (∀ s', isAlive st' s' = isAlive st s') ∧
    (∀ s' k, s' ≠ s ∨ k ≠ n → tableEntry st' s' k = tableEntry st s' k) ∧
    (∀ io, io < st.types.length → getType st' io = getType st io) ∧
    st.types.length ≤ st'.types.length ∧
    (tableEntry st' s n).isSome = true := by
  unfold registerType at h
  split at h
  next => exact absurd h (by simp)
  next sc h1 =>
    have halive : isAlive st s = true := by unfold isAlive; rw [h1]; rfl
    have hentry := tableEntry_of_getScope st s sc h1
    split at h
    -- type? = none
    · split at h
      next hsome =>
        cases h
        refine ⟨halive, fun _ => rfl, fun _ _ _ => rfl, fun _ _ => rfl, le_refl _, ?_⟩
        rw [hentry]; exact hsome
      next hsome =>
        dsimp only [] at h
        split at h
        next => exact absurd h (by simp)
        next sc₁ h2 =>
          cases h
          have hsc₁ : sc₁ = sc := by
            rw [getScope_allocType, h1] at h2
            exact (Option.some.injEq _ _ ▸ h2).symm
          subst hsc₁
          have h1' : getScope (allocType st { dtype := .DEFERRED }).2 s = some sc₁ := h1
          refine ⟨halive, isAlive_setScope _ s _ sc₁ h1', ?_, fun io hio => ?_, ?_, ?_⟩
          · intro s' k hk
            by_cases hs : s' = s
            · subst hs
              rcases hk with hk | hk
              · exact absurd rfl hk
              · rw [tableEntry_setScope_self _ _ sc₁ _ h1' k]
                unfold ScopeVal.setdefault
                rw [if_neg hsome]
                show odLookup (sc₁.table ++ [(n, _)]) k = _
                rw [odLookup_append_single_ne _ _ _ _ hk]
                rw [hentry]
                rfl
            · rw [tableEntry_setScope_ne _ s _ s' k hs, tableEntry_allocType]
          · rw [getType_setScope, getType_allocType_lt _ _ _ hio]
          · show st.types.length ≤ (st.types ++ _).length
            simp
          · rw [tableEntry_setScope_self _ s sc₁ _ h1' n]
            unfold ScopeVal.setdefault
            rw [if_neg hsome]
            show (odLookup (sc₁.table ++ [(n, st.types.length)]) n).isSome = true
            rw [odLookup_append_single_absent]
            · rfl
            · exact Option.not_isSome_iff_eq_none.1 hsome
    -- type? = some t
    · split at h
      next hid =>
        cases h
        refine ⟨halive, fun _ => rfl, fun _ _ _ => rfl, fun _ _ => rfl, le_refl _, ?_⟩
        rw [hentry, hid]; rfl
      next hid =>
        split at h
        next => exact absurd h (by simp)
        next tv h2 =>
          dsimp only [] at h
          split at h
          next => exact absurd h (by simp)
          next sc₁ h3 =>
            cases h
            have hsc₁ : sc₁ = sc := by
              rw [getScope_allocType, h1] at h3
              exact (Option.some.injEq _ _ ▸ h3).symm
            subst hsc₁
            have h1' : getScope (allocType st tv).2 s = some sc₁ := h1
            refine ⟨halive, isAlive_setScope _ s _ sc₁ h1', ?_, fun io hio => ?_, ?_, ?_⟩
            · intro s' k hk
              by_cases hs : s' = s
              · subst hs
                rcases hk with hk | hk
                · exact absurd rfl hk
                · rw [tableEntry_setScope_self _ _ sc₁ _ h1' k]
                  show odLookup (odSet sc₁.table n _) k = _
                  rw [odLookup_odSet_ne _ _ _ _ hk, hentry]
                  rfl
              · rw [tableEntry_setScope_ne _ s _ s' k hs, tableEntry_allocType]
            · rw [getType_setScope, getType_allocType_lt _ _ _ hio]
            · show st.types.length ≤ (st.types ++ _).length
              simp
            · rw [tableEntry_setScope_self _ s sc₁ _ h1' n]
              show (odLookup (odSet sc₁.table n st.types.length) n).isSome = true
              rw [odLookup_odSet_self]
              rfl

theorem scalarInit_spec (st : State) (n : String) (s : Nat) (t? : Option Nat)
    (p i v : Expr) (st' : State) (h : scalarInit st n s t? p i = some (v, st')) :
    v = .scalar n s p i ∧ registerType st n s t? = some st' := by
  unfold scalarInit at h
  cases hr : registerType st n s t? with
  | none => rw [hr] at h; exact absurd h (by simp)
  | some st₂ =>
      rw [hr] at h
      simp only [Option.map_some', Option.some.injEq, Prod.mk.injEq] at h
      exact ⟨h.1.symm, by rw [h.2]⟩

theorem arrayInit_spec (st : State) (n : String) (s : Nat) (t? : Option Nat)
    (p d i v : Expr) (st' : State) (h : arrayInit st n s t? p d i = some (v, st')) :
    v = .array n s p (wrapDims d) i ∧ registerType st n s t? = some st' := by
  unfold arrayInit at h
  cases hr : registerType st n s t? with
  | none => rw [hr] at h; exact absurd h (by simp)
  | some st₂ =>
      rw [hr] at h
      simp only [Option.map_some', Option.some.injEq, Prod.mk.injEq] at h
      exact ⟨h.1.symm, by rw [h.2]⟩

/-- Constructing with the *identical* type object as the scope's entry does
not touch the world. -/
theorem registerType_identical (st : State) (n : String) (s : Nat) (t : Nat)
    (sc : ScopeVal) (h1 : getScope st s = some sc) (h : sc.lookup n = some t) :
    registerType st n s (some t) = some st := by
  simp only [registerType, h1, h, if_pos]

/-- Constructing with no explicit type when the scope already has an entry
does not touch the world (`setdefault` finds the name present). -/
theorem registerType_default_present (st : State) (n : String) (s : Nat)
    (sc : ScopeVal) (h1 : getScope st s = some sc)
    (h : (sc.lookup n).isSome = true) : registerType st n s none = some st := by
  simp only [registerType, h1, h, if_true]

/-- Constructing with an explicit type that is not the scope's current entry
overwrites the entry with a fresh clone of the given object. -/
theorem registerType_overwrite (st : State) (n : String) (s : Nat) (t : Nat)
    (tv : SymbolTypeVal) (sc : ScopeVal) (h1 : getScope st s = some sc)
    (hne : ¬sc.lookup n = some t) (htv : getType st t = some tv) :
    registerType st n s (some t) =
      some (setScope (allocType st tv).2 s (sc.assign n (allocType st tv).1)) := by
  simp only [registerType, h1, htv, if_neg hne, getScope_allocType]

theorem boundAs_boundTo {n : String} {s : Nat} {e : Expr} (h : BoundAs n s e) :
    BoundTo s e := by
  rcases h with ⟨p, i, rfl⟩ | ⟨p, d, i, rfl⟩
  · exact Or.inl ⟨n, p, i, rfl⟩
  · exact Or.inr ⟨n, p, d, i, rfl⟩

theorem boundAs_of_name_scope {e : Expr} {n : String} {s : Nat}
    (hn : nameOf e = some n) (hs : scopeRefOf e = some s) : BoundAs n s e := by
  cases e <;> simp [nameOf, scopeRefOf] at hn hs
  · exact Or.inl ⟨_, _, by rw [hn.symm, hs.symm]⟩
  · exact Or.inr ⟨_, _, _, by rw [hn.symm, hs.symm]⟩

theorem nameOf_of_boundAs {e : Expr} {n : String} {s : Nat} (h : BoundAs n s e) :
    nameOf e = some n ∧ scopeRefOf e = some s := by
  rcases h with ⟨p, i, rfl⟩ | ⟨p, d, i, rfl⟩ <;> exact ⟨rfl, rfl⟩

theorem typeGet_of_boundAs {st : State} {n : String} {s : Nat} {e : Expr}
    (hB : BoundAs n s e) : typeGet st e = (getScope st s).map (fun sc => sc.lookup n) := by
  rcases hB with ⟨p, i, rfl⟩ | ⟨p, d, i, rfl⟩ <;> rfl

theorem typeSet_of_boundAs {st : State} {n : String} {s : Nat} {e : Expr} {t : Nat}
    (hB : BoundAs n s e) :
    typeSet st e t = (getScope st s).map (fun sc => setScope st s (sc.assign n t)) := by
  rcases hB with ⟨p, i, rfl⟩ | ⟨p, d, i, rfl⟩ <;> rfl

theorem typeGet_some {st : State} {e : Expr} {t? : Option Nat}
    (h : typeGet st e = some t?) :
    ∃ n s sc, BoundAs n s e ∧ getScope st s = some sc ∧ t? = sc.lookup n := by
  cases e with
  | scalar n s p i =>
      simp only [typeGet] at h
      cases h1 : getScope st s with
      | none => rw [h1] at h; exact absurd h (by simp)
      | some sc =>
          rw [h1] at h
          refine ⟨n, s, sc, Or.inl ⟨p, i, rfl⟩, h1, ?_⟩
          exact (Option.some.injEq _ _ ▸ h).symm
  | array n s p d i =>
      simp only [typeGet] at h
      cases h1 : getScope st s with
      | none => rw [h1] at h; exact absurd h (by simp)
      | some sc =>
          rw [h1] at h
          refine ⟨n, s, sc, Or.inr ⟨p, d, i, rfl⟩, h1, ?_⟩
          exact (Option.some.injEq _ _ ▸ h).symm
  | noneE => exact absurd h (by simp [typeGet])
  | intLit v k => exact absurd h (by simp [typeGet])
  | floatLit v k => exact absurd h (by simp [typeGet])
  | logicLit v => exact absurd h (by simp [typeGet])
  | stringLit v => exact absurd h (by simp [typeGet])
  | rangeE t l u st => exact absurd h (by simp [typeGet])
  | arraySubscript ix => exact absurd h (by simp [typeGet])

theorem scopeObjOf_boundTo {st : State} {os : Nat} {e : Expr} (h : BoundTo os e) :
    scopeObjOf st e = some (if isAlive st os then some os else none) := by
  rcases h with ⟨n, p, i, rfl⟩ | ⟨n, p, d, i, rfl⟩ <;> rfl

theorem length_lt_member_name (onm b : String) :
    onm.length < (onm ++ "%" ++ b).length := by
  have h1 : ("%" : String).length = 1 := rfl
  have h : (onm ++ "%" ++ b).length = onm.length + 1 + b.length := by
    simp [String.length_append, h1]
  omega

/-! ## The member-expansion and factory master lemmas -/

theorem wrapDims_subscript (d : Expr) (h : isArraySubscriptE d = true) :
    wrapDims d = d := by
  cases d <;> simp [isArraySubscriptE] at h <;> rfl

theorem expandMembersF_master (vnew : State → String → Nat → Option Nat → Option (Expr × State))
    (hv : VNewOK vnew) (obj : Expr) (onm : String) (os : Nat)
    (hname : nameOf obj = some onm) (hscope : scopeRefOf obj = some os) :
    ∀ (vs : List (String × Expr)) (st : State) (tr : Nat) (tv : SymbolTypeVal)
      (r : Expr × State),
      tableEntry st os onm = some tr → tr < st.types.length →
      getType st tr = some tv → (∀ p ∈ tv.vars, BoundTo os p.2) →
      expandMembersF vnew obj vs st = some r →
      r.1 = obj ∧
      (∀ s', isAlive r.2 s' = isAlive st s') ∧
      (∀ s' k, k.length ≤ onm.length → tableEntry r.2 s' k = tableEntry st s' k) ∧
      (∀ io, io < st.types.length → io ≠ tr → getType r.2 io = getType st io) ∧
      st.types.length ≤ r.2.types.length ∧
      ∃ V, getType r.2 tr = some { tv with vars := V } ∧
        (∀ p ∈ V, BoundTo os p.2) ∧
        ((vs ≠ [] ∨ tv.vars ≠ []) → V ≠ []) := by
  intro vs
  induction vs with
  | nil =>
      intro st tr tv r h1 h2 h3 h4 h
      unfold expandMembersF at h
      cases h
      refine ⟨rfl, fun _ => rfl, fun _ _ _ => rfl, fun _ _ _ => rfl, le_refl _,
        tv.vars, ?_, h4, ?_⟩
      · rw [h3]
      · intro hne
        exact hne.resolve_left (by simp)
  | cons kv ps ih =>
      intro st tr tv r h1 h2 h3 h4 h
      obtain ⟨k, v⟩ := kv
      unfold expandMembersF at h
      dsimp only [] at h
      split at h
      next => exact absurd h (by simp)
      next => exact absurd h (by simp)
      next vt hvt =>
        split at h
        next => exact absurd h (by simp)
        next vtv hvtv =>
          split at h
          next onm2 os2 b hn2 hs2 hb2 =>
            split at h
            next => exact absurd h (by simp)
            next nv st₂ hvnew =>
              split at h
              next tr₂ ht2 =>
                split at h
                next => exact absurd h (by simp)
                next tv₂ htv2 =>
                  -- identify the split names with the given ones
                  rw [hname] at hn2
                  rw [hscope] at hs2
                  have honm2 : onm = onm2 := Option.some.injEq _ _ ▸ hn2
                  have hos2 : os = os2 := Option.some.injEq _ _ ▸ hs2
                  subst honm2
                  subst hos2
                  -- the factory-call bundle
                  obtain ⟨hBnv, hAalive, hAtable, hAtypes, hAlen⟩ :=
                    hv _ _ _ _ _ _ hvnew
                  have hstA : (allocType st { vtv with parent := obj }).2.types.length
                      = st.types.length + 1 := by simp [allocType]
                  have halive₂ : ∀ s', isAlive st₂ s' = isAlive st s' := fun s' =>
                    (hAalive s').trans (isAlive_allocType _ _ s')
                  have htable₂ : ∀ s' k', k'.length ≤ onm.length →
                      tableEntry st₂ s' k' = tableEntry st s' k' := by
                    intro s' k' hk
                    have hk' : k'.length < (onm ++ "%" ++ b).length :=
                      lt_of_le_of_lt hk (length_lt_member_name onm b)
                    exact (hAtable s' k' hk').trans (tableEntry_allocType _ _ _ _)
                  have hentry₂ : tableEntry st₂ os onm = some tr :=
                    (htable₂ os onm (le_refl _)).trans h1
                  -- the re-lookup finds the same entry
                  obtain ⟨n', s', sc', hB', hsc', hlk'⟩ := typeGet_some ht2
                  obtain ⟨hn', hs'⟩ := nameOf_of_boundAs hB'
                  rw [hname] at hn'
                  rw [hscope] at hs'
                  have hn'' : onm = n' := Option.some.injEq _ _ ▸ hn'
                  have hs'' : os = s' := Option.some.injEq _ _ ▸ hs'
                  subst hn''
                  subst hs''
                  have hlk₂ : tableEntry st₂ os onm = some tr₂ := by
                    rw [tableEntry_of_getScope st₂ os sc' hsc']
                    exact hlk'.symm
                  rw [hentry₂] at hlk₂
                  have htr : tr = tr₂ := Option.some.injEq _ _ ▸ hlk₂
                  subst htr
                  have hlen₂ : st.types.length + 1 ≤ st₂.types.length := by
                    rw [← hstA]; exact hAlen
                  have hgt₂ : getType st₂ tr = some tv := by
                    have e1 : getType st₂ tr
                        = getType (allocType st { vtv with parent := obj }).2 tr :=
                      hAtypes tr (by omega)
                    rw [e1, getType_allocType_lt _ _ _ h2]
                    exact h3
                  rw [hgt₂] at htv2
                  have htvv : tv = tv₂ := Option.some.injEq _ _ ▸ htv2
                  subst htvv
                  -- invoke the induction hypothesis on the updated state
                  have h1₃ : tableEntry (setTypeVal st₂ tr
                      { tv with vars := odSet tv.vars k nv }) os onm = some tr := hentry₂
                  have h2₃ : tr < (setTypeVal st₂ tr
                      { tv with vars := odSet tv.vars k nv }).types.length := by
                    rw [length_setTypeVal]; omega
                  have h3₃ : getType (setTypeVal st₂ tr
                      { tv with vars := odSet tv.vars k nv }) tr
                      = some { tv with vars := odSet tv.vars k nv } :=
                    getType_setTypeVal_self st₂ tr _ (by omega)
                  have h4₃ : ∀ p ∈ odSet tv.vars k nv, BoundTo os p.2 := by
                    intro p hp
                    rcases odSet_values tv.vars k nv p hp with hpv | hpv
                    · rw [hpv]; exact boundAs_boundTo hBnv
                    · exact h4 p hpv
                  obtain ⟨hr1, hA', hB', hC', hD', V, hV, hVgood, hVne⟩ :=
                    ih _ tr _ r h1₃ h2₃ h3₃ h4₃ h
                  refine ⟨hr1, ?_, ?_, ?_, ?_, V, ?_, hVgood,
                    fun _ => hVne (Or.inr (odSet_ne_nil _ _ _))⟩
                  · intro s''
                    exact (hA' s'').trans (halive₂ s'')
                  · intro s'' k' hk
                    exact (hB' s'' k' hk).trans (htable₂ s'' k' hk)
                  · intro io hio hne
                    have e1 := hC' io (by rw [length_setTypeVal]; omega) hne
                    rw [e1, getType_setTypeVal_ne _ _ _ _ hne,
                      hAtypes io (by omega), getType_allocType_lt _ _ _ hio]
                  · calc st.types.length ≤ st₂.types.length := by omega
                      _ = _ := (length_setTypeVal _ _ _).symm
                      _ ≤ r.2.types.length := hD'
                  · exact hV
              next => exact absurd h (by simp)
          next =>
            exact absurd h (by simp)

theorem instantiateF_master (vnew : State → String → Nat → Option Nat → Option (Expr × State))
    (hv : VNewOK vnew) (st : State) (obj : Expr) (n : String) (s : Nat)
    (hname : nameOf obj = some n) (hscope : scopeRefOf obj = some s)
    (r : Expr × State) (h : instantiateF vnew st obj = some r) :
    r.1 = obj ∧
    (∀ s', isAlive r.2 s' = isAlive st s') ∧
    (∀ s' k, k.length < n.length → tableEntry r.2 s' k = tableEntry st s' k) ∧
    (∀ io, io < st.types.length → getType r.2 io = getType st io) ∧
    st.types.length ≤ r.2.types.length ∧
    (∀ vnew', instantiateF vnew' r.2 r.1 = some r) := by
  obtain ⟨r1, rst⟩ := r
  unfold instantiateF at h
  split at h
  next => exact absurd h (by simp)
  next heq =>
    -- typeGet st obj = some none
    cases h
    refine ⟨rfl, fun _ => rfl, fun _ _ _ => rfl, fun _ _ => rfl, le_refl _, ?_⟩
    intro vnew'
    unfold instantiateF
    rw [heq]
  next tr heq =>
    split at h
    next => exact absurd h (by simp)
    next tv hgt =>
      split at h
      -- derived type
      next hder =>
        split at h
        next hvars =>
          -- empty member map: no-op
          cases h
          refine ⟨rfl, fun _ => rfl, fun _ _ _ => rfl, fun _ _ => rfl, le_refl _, ?_⟩
          intro vnew'
          unfold instantiateF
          simp only [heq, hgt, if_pos hder, hvars]
        next k0 v0 rest hvars =>
          split at h
          next mo oo hmo hoo =>
            split at h
            next hneq =>
              dsimp only [] at h
              split at h
              next => exact absurd h (by simp)
              next st₂ hts =>
                have hBobj : BoundAs n s obj := boundAs_of_name_scope hname hscope
                -- the scope is alive and holds an entry for the name
                obtain ⟨n', s', sc, hB', hsc, hlk⟩ := typeGet_some heq
                obtain ⟨hn', hs'⟩ := nameOf_of_boundAs hB'
                rw [hname] at hn'
                rw [hscope] at hs'
                have hn'' : n = n' := Option.some.injEq _ _ ▸ hn'
                have hs'' : s = s' := Option.some.injEq _ _ ▸ hs'
                subst hn''
                subst hs''
                -- the new table state produced by the type setter
                rw [typeSet_of_boundAs hBobj] at hts
                have hscA : getScope (allocType st { tv with vars := [] }).2 s = some sc := hsc
                rw [hscA] at hts
                simp only [Option.map_some', Option.some.injEq] at hts
                have hlenA : (allocType st { tv with vars := [] }).2.types.length
                    = st.types.length + 1 := by simp [allocType]
                -- hypotheses for the member-loop lemma
                have h1em : tableEntry st₂ s n = some st.types.length := by
                  rw [← hts, tableEntry_setScope_self _ s sc _ hscA n]
                  show odLookup (odSet sc.table n _) n = _
                  rw [odLookup_odSet_self]
                  rfl
                have hlen₂ : st₂.types.length = st.types.length + 1 := by
                  rw [← hts]
                  show (allocType st { tv with vars := [] }).2.types.length = _
                  exact hlenA
                have h2em : st.types.length < st₂.types.length := by omega
                have h3em : getType st₂ st.types.length = some { tv with vars := [] } := by
                  rw [← hts]
                  show getType (allocType st { tv with vars := [] }).2 st.types.length = _
                  exact getType_allocType_fresh st _
                have h4em : ∀ p ∈ ({ tv with vars := [] } : SymbolTypeVal).vars,
                    BoundTo s p.2 := by
                  intro p hp
                  simp at hp
                obtain ⟨hr1, hA, hB, hC, hD, V, hVget, hVgood, hVne⟩ :=
                  expandMembersF_master vnew hv obj n s hname hscope tv.vars st₂
                    st.types.length { tv with vars := [] } (r1, rst) h1em h2em h3em h4em h
                have hVne' : V ≠ [] := hVne (Or.inl (by rw [hvars]; simp))
                have halive_st : ∀ s', isAlive st₂ s' = isAlive st s' := by
                  intro s'
                  rw [← hts]
                  exact isAlive_setScope _ s _ sc hscA s'
                have htabst : ∀ s' k, k.length < n.length →
                    tableEntry st₂ s' k = tableEntry st s' k := by
                  intro s' k hk
                  rw [← hts]
                  by_cases hss : s' = s
                  · subst hss
                    rw [tableEntry_setScope_self _ s' sc _ hscA k]
                    show odLookup (odSet sc.table n _) k = _
                    rw [odLookup_odSet_ne _ _ _ _ (by intro hkn; rw [hkn] at hk; omega)]
                    rw [tableEntry_of_getScope st s' sc hsc]
                    rfl
                  · rw [tableEntry_setScope_ne _ s _ s' k hss]
                    rfl
                have htypst : ∀ io, io < st.types.length →
                    getType st₂ io = getType st io := by
                  intro io hio
                  rw [← hts]
                  show getType (allocType st { tv with vars := [] }).2 io = _
                  exact getType_allocType_lt _ _ _ hio
                refine ⟨hr1, ?_, ?_, ?_, ?_, ?_⟩
                · intro s'
                  exact (hA s').trans (halive_st s')
                · intro s' k hk
                  exact (hB s' k (le_of_lt hk)).trans (htabst s' k hk)
                · intro io hio
                  have e1 := hC io (by omega) (by omega)
                  rw [e1]
                  exact htypst io hio
                · calc st.types.length ≤ st₂.types.length := by omega
                    _ ≤ rst.types.length := hD
                · -- second invocation: the guard now sees members bound to the
                  -- object's own scope and does nothing
                  intro vnew'
                  have hr1' : r1 = obj := hr1
                  have halive_r : isAlive rst s = true := by
                    rw [hA s, halive_st s]
                    unfold isAlive
                    rw [hsc]
                    rfl
                  obtain ⟨sc'', hsc''⟩ := Option.isSome_iff_exists.1 halive_r
                  have hentry_r : tableEntry rst s n = some st.types.length :=
                    (hB s n (le_refl _)).trans h1em
                  have hlk_r : sc''.lookup n = some st.types.length := by
                    rw [← tableEntry_of_getScope rst s sc'' hsc'']
                    exact hentry_r
                  have htg_r : typeGet rst obj = some (some st.types.length) := by
                    rw [typeGet_of_boundAs hBobj, hsc'']
                    simp [hlk_r]
                  obtain ⟨hd, tl, hVcons⟩ := List.exists_cons_of_ne_nil hVne'
                  subst hVcons
                  have hhd : BoundTo s hd.2 := hVgood hd (List.mem_cons_self _ _)
                  have hso1 : scopeObjOf rst hd.2
                      = some (if isAlive rst s then some s else none) :=
                    scopeObjOf_boundTo hhd
                  have hso2 : scopeObjOf rst obj
                      = some (if isAlive rst s then some s else none) :=
                    scopeObjOf_boundTo (boundAs_boundTo hBobj)
                  rw [hr1']
                  unfold instantiateF
                  simp only [htg_r, hVget, hder, if_true, hso1, hso2]
                  simp
            next hneq =>
              -- scopes equal: no-op
              cases h
              refine ⟨rfl, fun _ => rfl, fun _ _ _ => rfl, fun _ _ => rfl, le_refl _, ?_⟩
              intro vnew'
              unfold instantiateF
              simp only [heq, hgt, if_pos hder, hvars, hmo, hoo, if_neg hneq]
          next => exact absurd h (by simp)
      next hder =>
        -- not a derived type: no-op
        cases h
        refine ⟨rfl, fun _ => rfl, fun _ _ _ => rfl, fun _ _ => rfl, le_refl _, ?_⟩
        intro vnew'
        unfold instantiateF
        simp only [heq, hgt, if_neg hder]

theorem variableNew_master :
    ∀ (f : Nat) (st : State) (n : String) (s : Nat) (t? : Option Nat)
      (d p i : Expr) (r : Expr × State),
      variableNew f st n s t? d p i = some r →
      isAlive st s = true ∧
      (if d = Expr.noneE ∧ resolvedShapeEmpty st s n t? = true
        then r.1 = Expr.scalar n s p i
        else r.1 = Expr.array n s p (wrapDims d) i) ∧
      (∀ s', isAlive r.2 s' = isAlive st s') ∧
      (∀ s' k, k.length < n.length → tableEntry r.2 s' k = tableEntry st s' k) ∧
      (∀ io, io < st.types.length → getType r.2 io = getType st io) ∧
      st.types.length ≤ r.2.types.length := by
  intro f
  induction f with
  | zero =>
      intro st n s t? d p i r h
      exact absurd h (by simp [variableNew])
  | succ f ihf =>
      have hv : VNewOK (fun st' n' s' t' => variableNew f st' n' s' t' .noneE .noneE .noneE) := by
        intro st' n' s' t' v' stx h'
        obtain ⟨_, hdisp, hA, hB, hC, hD⟩ := ihf st' n' s' t' .noneE .noneE .noneE (v', stx) h'
        refine ⟨?_, hA, hB, hC, hD⟩
        by_cases hc : (Expr.noneE = Expr.noneE ∧ resolvedShapeEmpty st' s' n' t' = true)
        · rw [if_pos hc] at hdisp
          exact Or.inl ⟨.noneE, .noneE, hdisp⟩
        · rw [if_neg hc] at hdisp
          exact Or.inr ⟨.noneE, _, .noneE, hdisp⟩
      intro st n s t? d p i r h
      unfold variableNew at h
      split at h
      next => exact absurd h (by simp)
      next sc hsc =>
        have halive : isAlive st s = true := by unfold isAlive; rw [hsc]; rfl
        dsimp only [] at h
        split at h
        next => exact absurd h (by simp)
        next shapeEmpty hshape =>
          -- the computed emptiness flag agrees with `resolvedShapeEmpty`
          generalize hE : (match t? with
            | some tr => some tr
            | none => sc.lookup n) = tE at hshape h
          have htres : resolvedTypeRef st s n t? = tE := by
            rw [← hE]
            cases t? with
            | some tr => rfl
            | none =>
                unfold resolvedTypeRef tableEntry
                rw [hsc]
                rfl
          have hres : resolvedShapeEmpty st s n t? = shapeEmpty := by
            unfold resolvedShapeEmpty
            rw [htres]
            cases tE with
            | none =>
                simp only [Option.some.injEq] at hshape
                simp [hshape]
            | some tr =>
                simp only [Option.map_eq_some'] at hshape
                obtain ⟨tv0, hg, hsh⟩ := hshape
                simp [hg, hsh]
          split at h
          next => exact absurd h (by simp)
          next obj st₁ hinit =>
            split at hinit
            next hcond =>
              obtain ⟨hobj, hreg⟩ := scalarInit_spec _ _ _ _ _ _ _ _ hinit
              subst hobj
              obtain ⟨_, hRa, hRt, hRty, hRlen, _⟩ :=
                registerType_spec st n s _ st₁ hreg
              obtain ⟨hr1, hIa, hIt, hIty, hIlen, _⟩ :=
                instantiateF_master _ hv st₁ (Expr.scalar n s p i) n s rfl rfl r h
              refine ⟨halive, ?_, ?_, ?_, ?_, ?_⟩
              · rw [if_pos ⟨hcond.1, by rw [hres]; exact hcond.2⟩]
                exact hr1
              · intro s'
                exact (hIa s').trans (hRa s')
              · intro s' k hk
                refine (hIt s' k hk).trans (hRt s' k (Or.inr ?_))
                intro hkn
                rw [hkn] at hk
                omega
              · intro io hio
                exact (hIty io (lt_of_lt_of_le hio hRlen)).trans (hRty io hio)
              · omega
            next hcond =>
              obtain ⟨hobj, hreg⟩ := arrayInit_spec _ _ _ _ _ _ _ _ _ hinit
              subst hobj
              obtain ⟨_, hRa, hRt, hRty, hRlen, _⟩ :=
                registerType_spec st n s _ st₁ hreg
              obtain ⟨hr1, hIa, hIt, hIty, hIlen, _⟩ :=
                instantiateF_master _ hv st₁ (Expr.array n s p (wrapDims d) i) n s rfl rfl r h
              refine ⟨halive, ?_, ?_, ?_, ?_, ?_⟩
              · rw [if_neg (by rw [← hres] at hcond; exact hcond)]
                exact hr1
              · intro s'
                exact (hIa s').trans (hRa s')
              · intro s' k hk
                refine (hIt s' k hk).trans (hRt s' k (Or.inr ?_))
                intro hkn
                rw [hkn] at hk
                omega
              · intro io hio
                exact (hIty io (lt_of_lt_of_le hio hRlen)).trans (hRty io hio)
              · omega

theorem variableNew_ok (f : Nat) : VNewOK (variableNewSimple f) := by
  intro st n s t v st' h
  obtain ⟨_, hdisp, hA, hB, hC, hD⟩ :=
    variableNew_master f st n s t .noneE .noneE .noneE (v, st') h
  refine ⟨?_, hA, hB, hC, hD⟩
  by_cases hc : (Expr.noneE = Expr.noneE ∧ resolvedShapeEmpty st s n t = true)
  · rw [if_pos hc] at hdisp
    exact Or.inl ⟨.noneE, .noneE, hdisp⟩
  · rw [if_neg hc] at hdisp
    exact Or.inr ⟨.noneE, _, .noneE, hdisp⟩

theorem instantiateF_typeGet (vnew : State → String → Nat → Option Nat → Option (Expr × State))
    (st : State) (obj : Expr) (r : Expr × State)
    (h : instantiateF vnew st obj = some r) : ∃ x, typeGet st obj = some x := by
  unfold instantiateF at h
  split at h
  next => exact absurd h (by simp)
  next heq => exact ⟨_, heq⟩
  next tr heq => exact ⟨_, heq⟩

/-! ## C2: `RangeIndex` with only an upper bound -/

/-- C2 (counterexample): `RangeIndex((None, 5))` — a `RangeIndex` given only
an upper bound — constructs a range node with absent lower bound and step;
it is *not* structurally equal to `IntLiteral(5)`: no collapse rule exists
in `Range.__init__`/`RangeIndex`. -/
theorem rangeIndex_upper_only_not_intliteral :
    rangeInit .index [.noneE, .intLit 5 none] =
        some (.rangeE .index .noneE (.intLit 5 none) .noneE) ∧
      rangeInit .index [.noneE, .intLit 5 none] ≠ some (.intLit 5 none) := by
  decide

/-- C2 (amended): for every integer bound `u`, constructing a `RangeIndex`
with only an upper bound yields a `RangeIndex` node whose lower bound and
step are `None` and whose upper bound is `IntLiteral(u)` — a range node, not
the integer literal itself. -/
theorem rangeIndex_upper_only_stays_range (u : Int) :
    rangeInit .index [.noneE, .intLit u none] =
      some (.rangeE .index .noneE (.intLit u none) .noneE) := rfl

/-! ## C3: the `Literal` classification table -/

/-- C3 (counterexample): classifying the raw *string* `"5"` does not yield
`IntLiteral(5)`; the string hits the character branch of
`Literal._from_literal` and yields `StringLiteral("5")`. -/
theorem literal_string5_counterexample :
    literalClassify (.pstr "5") none = some (.stringLit "5") ∧
      literalClassify (.pstr "5") none ≠ some (.intLit 5 none) := by
  decide

/-- C3 (amended): the factory classifies by the raw value's native kind:
the native integer `5` yields `IntLiteral(5)` while the string `"5"` yields
`StringLiteral("5")`; classifying `"1.0"` yields a literal whose textual
value is exactly `"1.0"` (a `StringLiteral` for the raw string, a
`FloatLiteral` for the native float); `".true."` yields `LogicLiteral(true)`
case-insensitively; `"'abc'"` yields `StringLiteral("abc")` with the quote
pair stripped. -/
theorem literal_classification_table :
    literalClassify (.pint 5) none = some (.intLit 5 none) ∧
      literalClassify (.pstr "5") none = some (.stringLit "5") ∧
      literalClassify (.pstr "1.0") none = some (.stringLit "1.0") ∧
      literalClassify (.pfloat "1.0") none = some (.floatLit "1.0" none) ∧
      literalClassify (.pstr ".true.") none = some (.logicLit true) ∧
      literalClassify (.pstr ".TRUE.") none = some (.logicLit true) ∧
      literalClassify (.pstr "'abc'") none = some (.stringLit "abc") := by
  decide

/-! ## C9: Python booleans hit the integer branch -/

/-- C9: `isinstance(True, int)` holds, so the factory classifies the Python
booleans `True`/`False` as `IntLiteral(1)`/`IntLiteral(0)` — not as
`LogicLiteral` — while the four textual keywords (case-insensitive) are the
ones that produce a `LogicLiteral`. -/
theorem literal_python_bool_is_intliteral :
    literalClassify (.pbool true) none = some (.intLit 1 none) ∧
      literalClassify (.pbool false) none = some (.intLit 0 none) ∧
      literalClassify (.pstr ".true.") none = some (.logicLit true) ∧
      literalClassify (.pstr "true") none = some (.logicLit true) ∧
      literalClassify (.pstr ".false.") none = some (.logicLit false) ∧
      literalClassify (.pstr "false") none = some (.logicLit false) ∧
      literalClassify (.pstr ".FALSE.") none = some (.logicLit false) := by
  decide

/-! ## C10: `StringLiteral` construction -/

/-- C10: `StringLiteral` construction requires a non-empty value — on the
empty string the quote test `value[0]` raises (`none`) — and for every
string of length at least two whose first and last characters are the same
quote character, exactly one leading/trailing quote pair is removed (the
input is literally `q ++ mid ++ q` and the stored value is `mid`). -/
theorem stringLiteral_empty_fails_and_strips_one_pair :
    stringLiteralInit "" = none ∧
      ∀ (q : Char) (mid : List Char), (q = '"' ∨ q = '\'') →
        stringLiteralInit ⟨q :: (mid ++ [q])⟩ = some (.stringLit ⟨mid⟩) := by
  refine ⟨rfl, fun q mid hq => ?_⟩
  simp only [stringLiteralInit, getLastD_append_single, dropLast_append_single,
    hq, and_true, if_pos rfl]
  simp [hq]

/-- C10 (witness): the theorem applied at the concrete input `"'abc'"`. -/
theorem stringLiteral_strips_one_pair_witness :
    stringLiteralInit "'abc'" = some (.stringLit "abc") := by
  have h := stringLiteral_empty_fails_and_strips_one_pair.2 '\'' ['a', 'b', 'c']
    (Or.inr rfl)
  simpa using h

/-! ## C6: explicit type vs. existing table entry ("last writer wins") -/

/-- C6: for a scope `s` that already maps `n` to the object `tr0`,
constructing a bound variable for `n` in `s`
* with the identical type object `tr0` leaves the world unchanged,
* with no explicit type leaves the world unchanged (`setdefault` finds the
  name), and
* with an explicit type `t` that differs by identity (`t ≠ tr0`, even if the
  stored values are equal) overwrites the table entry: afterwards it names a
  fresh object (`st.types.length`, distinct from `tr0`) holding a clone of
  `t`'s value — last writer wins. -/
theorem explicit_type_last_writer_wins (st : State) (s : Nat) (n : String)
    (tr0 : Nat) (sc : ScopeVal) (h1 : getScope st s = some sc)
    (h0 : sc.lookup n = some tr0) (h0lt : tr0 < st.types.length) :
    (∀ p i, scalarInit st n s (some tr0) p i = some (.scalar n s p i, st)) ∧
    (∀ p d i, arrayInit st n s (some tr0) p d i =
        some (.array n s p (wrapDims d) i, st)) ∧
    (∀ p i, scalarInit st n s none p i = some (.scalar n s p i, st)) ∧
    (∀ p d i, arrayInit st n s none p d i =
        some (.array n s p (wrapDims d) i, st)) ∧
    (∀ t tv, t ≠ tr0 → getType st t = some tv → ∀ p i,
        ∃ st', scalarInit st n s (some t) p i = some (.scalar n s p i, st') ∧
          tableEntry st' s n = some st.types.length ∧
          st.types.length ≠ tr0 ∧
          getType st' st.types.length = some tv) ∧
    (∀ t tv, t ≠ tr0 → getType st t = some tv → ∀ p d i,
        ∃ st', arrayInit st n s (some t) p d i =
            some (.array n s p (wrapDims d) i, st') ∧
          tableEntry st' s n = some st.types.length ∧
          st.types.length ≠ tr0 ∧
          getType st' st.types.length = some tv) := by
  have hover : ∀ t tv, t ≠ tr0 → getType st t = some tv →
      registerType st n s (some t) =
        some (setScope (allocType st tv).2 s (sc.assign n (allocType st tv).1)) ∧
      tableEntry (setScope (allocType st tv).2 s (sc.assign n (allocType st tv).1)) s n =
        some st.types.length ∧
      getType (setScope (allocType st tv).2 s (sc.assign n (allocType st tv).1))
        st.types.length = some tv := by
    intro t tv hne htv
    have hne' : ¬sc.lookup n = some t := by
      rw [h0]; intro hh; exact hne (Option.some.injEq _ _ ▸ hh).symm
    refine ⟨registerType_overwrite st n s t tv sc h1 hne' htv, ?_, ?_⟩
    · have h1' : getScope (allocType st tv).2 s = some sc := h1
      rw [tableEntry_setScope_self _ s sc _ h1' n]
      show odLookup (odSet sc.table n _) n = _
      rw [odLookup_odSet_self]
      rfl
    · rw [getType_setScope]
      exact getType_allocType_fresh st tv
  refine ⟨?_, ?_, ?_, ?_, ?_, ?_⟩
  · intro p i
    unfold scalarInit
    rw [registerType_identical st n s tr0 sc h1 h0]
    rfl
  · intro p d i
    unfold arrayInit
    rw [registerType_identical st n s tr0 sc h1 h0]
    rfl
  · intro p i
    unfold scalarInit
    rw [registerType_default_present st n s sc h1 (by rw [h0]; rfl)]
    rfl
  · intro p d i
    unfold arrayInit
    rw [registerType_default_present st n s sc h1 (by rw [h0]; rfl)]
    rfl
  · intro t tv hne htv p i
    obtain ⟨hreg, hent, hget⟩ := hover t tv hne htv
    refine ⟨_, ?_, hent, by omega, hget⟩
    unfold scalarInit
    rw [hreg]
    rfl
  · intro t tv hne htv p d i
    obtain ⟨hreg, hent, hget⟩ := hover t tv hne htv
    refine ⟨_, ?_, hent, by omega, hget⟩
    unfold arrayInit
    rw [hreg]
    rfl

/-- C6 (witness): a scope mapping `"a"` to object `0` (`INTEGER`); providing
the distinct object `1` (`REAL`) through `Scalar.__init__` overwrites the
entry with a fresh clone (object `2`) of the `REAL` descriptor. -/
theorem explicit_type_last_writer_wins_witness :
    ∃ st', scalarInit
        { types := [{ dtype := .INTEGER }, { dtype := .REAL }],
          scopes := [some ⟨[("a", 0)]⟩] } "a" 0 (some 1) .noneE .noneE =
          some (.scalar "a" 0 .noneE .noneE, st') ∧
      tableEntry st' 0 "a" = some 2 ∧ (2 : Nat) ≠ 0 ∧
      getType st' 2 = some { dtype := .REAL } := by
  have h := (explicit_type_last_writer_wins
      { types := [{ dtype := .INTEGER }, { dtype := .REAL }],
        scopes := [some ⟨[("a", 0)]⟩] } 0 "a" 0 ⟨[("a", 0)]⟩
      rfl (by decide) (by decide)).2.2.2.2.1 1 { dtype := .REAL }
      (by decide) rfl Expr.noneE Expr.noneE
  simpa using h

/-! ## C8: accessing `.scope` after the scope was discarded -/

/-- C8: after the owner discards a scope, the `.scope` accessor on any
`Scalar` or `Array` node that references it returns an absent result
(`None`) — the access itself succeeds (outer `some`), it does not crash:
the node's reference is non-owning. -/
theorem scope_access_after_discard (st : State) (s : Nat) (n : String)
    (p i d : Expr) :
    scopeProp (discardScope st s) (.scalar n s p i) = some none ∧
      scopeProp (discardScope st s) (.array n s p d i) = some none := by
  have h : getScope (discardScope st s) s = none := by
    unfold getScope discardScope
    rcases lt_or_le s st.scopes.length with hs | hs
    · rw [List.get?_set_eq_of_lt none hs]; rfl
    · rw [List.get?_eq_none.2 (by simpa using hs)]; rfl
  constructor <;> simp [scopeProp, scopeRefOf, h]


/-! ## C1: the type of a bound variable lives in the scope's table -/

/-- C1: for every name `n` and scope `s`, a bound variable `v` constructed
through the `Variable` factory (with or without an explicit type) carries
exactly `(n, s)`; reading `v.type` returns exactly the scope's table entry
`s.lookup(n)` (non-recursive); writing `v.type` writes through to that table
entry; and — because the node itself stores no type value — any two bound
symbols carrying the same `(name, scope)` observe the same type in every
state. -/
theorem type_reads_and_writes_scope_entry (f : Nat) (st : State) (n : String)
    (s : Nat) (t? : Option Nat) (d p i : Expr) (v : Expr) (st' : State)
    (h : variableNew f st n s t? d p i = some (v, st')) :
    nameOf v = some n ∧ scopeRefOf v = some s ∧
    typeGet st' v = some (tableEntry st' s n) ∧
    (∀ tr, ∃ st₂, typeSet st' v tr = some st₂ ∧
      typeGet st₂ v = some (some tr) ∧ tableEntry st₂ s n = some tr) ∧
    (∀ (st₀ : State) (w : Expr), nameOf w = some n → scopeRefOf w = some s →
      typeGet st₀ w = typeGet st₀ v) := by
  obtain ⟨halive, hdisp, hA, _, _, _⟩ := variableNew_master f st n s t? d p i (v, st') h
  have hBv : BoundAs n s v := by
    by_cases hc : (d = Expr.noneE ∧ resolvedShapeEmpty st s n t? = true)
    · rw [if_pos hc] at hdisp
      exact Or.inl ⟨p, i, hdisp⟩
    · rw [if_neg hc] at hdisp
      exact Or.inr ⟨p, _, i, hdisp⟩
  obtain ⟨hnv, hsv⟩ := nameOf_of_boundAs hBv
  have halive' : isAlive st' s = true := by
    have := hA s
    rw [this]
    exact halive
  obtain ⟨sc', hsc'⟩ := Option.isSome_iff_exists.1 halive'
  refine ⟨hnv, hsv, ?_, ?_, ?_⟩
  · rw [typeGet_of_boundAs hBv, hsc', tableEntry_of_getScope st' s sc' hsc']
    rfl
  · intro tr
    refine ⟨setScope st' s (sc'.assign n tr), ?_, ?_, ?_⟩
    · rw [typeSet_of_boundAs hBv, hsc']
      rfl
    · rw [typeGet_of_boundAs hBv, getScope_setScope_self st' s sc' _ hsc']
      show some (odLookup (odSet sc'.table n tr) n) = _
      rw [odLookup_odSet_self]
    · rw [tableEntry_setScope_self st' s sc' _ hsc' n]
      show odLookup (odSet sc'.table n tr) n = _
      rw [odLookup_odSet_self]
  · intro st₀ w hnw hsw
    rw [typeGet_of_boundAs (boundAs_of_name_scope hnw hsw), typeGet_of_boundAs hBv]

/-- C1 (witness): constructing `"x"` in an empty scope inserts a `DEFERRED`
entry, and the node's `type` property reads that very table entry. -/
theorem type_reads_and_writes_scope_entry_witness :
    typeGet exDeferred (Expr.scalar "x" 0 .noneE .noneE)
      = some (tableEntry exDeferred 0 "x") :=
  (type_reads_and_writes_scope_entry 1 { types := [], scopes := [some ⟨[]⟩] }
    "x" 0 none .noneE .noneE .noneE (Expr.scalar "x" 0 .noneE .noneE)
    exDeferred (by decide)).2.2.1

/-! ## C4: derived-type member expansion is idempotent -/

/-- C4: whenever `instantiate_derived_type_variables` succeeds, running it
again on the returned object in the resulting world is a no-op returning the
same object and the same world: the expansion fires only when the first
member's scope differs from the object's own, and a completed expansion has
rebound every member to the object's scope (the fuel arguments only bound
the derived-type nesting depth; the second run needs none). -/
theorem instantiate_derived_type_idempotent (f f' : Nat) (st : State) (obj : Expr)
    (r : Expr × State) (h : instantiateDTV f st obj = some r) :
    instantiateDTV f' r.2 r.1 = some r := by
  obtain ⟨x, hx⟩ := instantiateF_typeGet _ _ _ _ h
  obtain ⟨n, s, sc, hB, hsc, hxl⟩ := typeGet_some hx
  obtain ⟨hn, hs⟩ := nameOf_of_boundAs hB
  exact (instantiateF_master _ (variableNew_ok f) st obj n s hn hs r h).2.2.2.2.2
    (variableNewSimple f')

/-- C4 (witness): expanding `d` (of a derived type whose member `x` is bound
to the type-definition scope `0`) in unit scope `1` rebuilds the member map
to hold `d%x` bound to scope `1`; a second invocation leaves the world
untouched. -/
theorem instantiate_derived_type_idempotent_witness :
    instantiateDTV 0 exDerivedExpanded (Expr.scalar "d" 1 .noneE .noneE)
      = some (Expr.scalar "d" 1 .noneE .noneE, exDerivedExpanded) :=
  instantiate_derived_type_idempotent 2 0 exDerived
    (Expr.scalar "d" 1 .noneE .noneE)
    (Expr.scalar "d" 1 .noneE .noneE, exDerivedExpanded)
    (by decide)

/-! ## C5: the factory's variant dispatch -/

/-- C5: the `Variable` factory yields a `Scalar` exactly when no dimensions
are given and the resolved type is absent or has an empty shape; otherwise
it yields an `Array` whose dimensions, when given and not already an
`ArraySubscript`, are wrapped in one; and it never returns anything other
than a `Scalar` or an `Array`. -/
theorem variable_factory_variant_dispatch (f : Nat) (st : State) (n : String)
    (s : Nat) (t? : Option Nat) (d p i : Expr) (v : Expr) (st' : State)
    (h : variableNew f st n s t? d p i = some (v, st')) :
    ((d = Expr.noneE ∧ resolvedShapeEmpty st s n t? = true) →
        v = Expr.scalar n s p i) ∧
    (¬(d = Expr.noneE ∧ resolvedShapeEmpty st s n t? = true) →
        v = Expr.array n s p (wrapDims d) i) ∧
    ((∃ p' i', v = Expr.scalar n s p' i') ∨ (∃ p' d' i', v = Expr.array n s p' d' i')) := by
  obtain ⟨_, hdisp, _⟩ := variableNew_master f st n s t? d p i (v, st') h
  by_cases hc : (d = Expr.noneE ∧ resolvedShapeEmpty st s n t? = true)
  · rw [if_pos hc] at hdisp
    exact ⟨fun _ => hdisp, fun hcc => absurd hc hcc, Or.inl ⟨p, i, hdisp⟩⟩
  · rw [if_neg hc] at hdisp
    exact ⟨fun hcc => absurd hcc hc, fun _ => hdisp, Or.inr ⟨p, _, i, hdisp⟩⟩

/-- C5 (witness): constructing `"a"` (scalar `INTEGER` entry) with explicit
dimensions yields an `Array` whose dimensions got wrapped in an
`ArraySubscript`. -/
theorem variable_factory_variant_dispatch_witness :
    Expr.array "a" 0 .noneE (Expr.arraySubscript (Expr.intLit 1 none)) .noneE
      = Expr.array "a" 0 .noneE (wrapDims (Expr.intLit 1 none)) .noneE :=
  (variable_factory_variant_dispatch 1 exIntScalar
      "a" 0 none (Expr.intLit 1 none) .noneE .noneE
      (Expr.array "a" 0 .noneE (Expr.arraySubscript (Expr.intLit 1 none)) .noneE)
      exIntScalar (by decide)).2.1 (by decide)

/-! ## C7: `clone()` with no overrides -/

/-- C7 (counterexample): an `Array` with no dimensions whose type's shape is
empty is a bound variable with a live scope, yet `clone()` with no overrides
re-derives a `Scalar` — a node that is *not* structurally equal to the
original (the code's own docstring notes this variant change). -/
theorem clone_dimensionless_array_counterexample :
    cloneVar 2 exIntScalar (Expr.array "a" 0 .noneE .noneE .noneE) =
        some (Expr.scalar "a" 0 .noneE .noneE, exIntScalar) ∧
      (Expr.scalar "a" 0 .noneE .noneE : Expr) ≠ Expr.array "a" 0 .noneE .noneE .noneE := by
  decide

/-- C7 (amended): for every bound variable whose variant agrees with the
factory's dispatch rule for its current type and dimensions (which every
factory-constructed, unmutated node does), `clone()` with no overrides
returns a node structurally equal to the original; the exception forced by
the counterexample is a variant-inconsistent node — e.g. an `Array` with no
dimensions and empty shape — which clones to the other variant. -/
theorem clone_no_overrides_equal (f : Nat) (st : State) (v v' : Expr) (st' : State)
    (hW : variantConsistent st v = true) (h : cloneVar f st v = some (v', st')) :
    v' = v := by
  cases v with
  | scalar n s p i =>
      simp only [cloneVar] at h
      split at h
      next => exact absurd h (by simp)
      next sc hsc =>
        split at h
        next => exact absurd h (by simp)
        next hnm =>
          obtain ⟨_, hdisp, _⟩ :=
            variableNew_master f st n s (sc.lookup n) .noneE p i (v', st') h
          rw [show variantConsistent st (Expr.scalar n s p i)
            = resolvedShapeEmpty st s n (tableEntry st s n) from rfl] at hW
          rw [tableEntry_of_getScope st s sc hsc n] at hW
          rw [if_pos ⟨rfl, hW⟩] at hdisp
          exact hdisp
  | array n s p d i =>
      simp only [cloneVar] at h
      split at h
      next => exact absurd h (by simp)
      next sc hsc =>
        split at h
        next => exact absurd h (by simp)
        next hnm =>
          obtain ⟨_, hdisp, _⟩ :=
            variableNew_master f st n s (sc.lookup n) d p i (v', st') h
          rw [show variantConsistent st (Expr.array n s p d i)
            = (isArraySubscriptE d ||
                (decide (d = Expr.noneE) &&
                  !(resolvedShapeEmpty st s n (tableEntry st s n)))) from rfl] at hW
          rw [tableEntry_of_getScope st s sc hsc n] at hW
          simp only [Bool.or_eq_true, Bool.and_eq_true, decide_eq_true_eq,
            Bool.not_eq_true'] at hW
          rcases hW with hsub | ⟨hdn, hne⟩
          · have hdne : ¬(d = Expr.noneE ∧
                resolvedShapeEmpty st s n (sc.lookup n) = true) := by
              rintro ⟨hdn, _⟩
              rw [hdn] at hsub
              simp [isArraySubscriptE] at hsub
            rw [if_neg hdne] at hdisp
            have hd2 : v' = Expr.array n s p (wrapDims d) i := hdisp
            rw [hd2, wrapDims_subscript d hsub]
          · subst hdn
            have hdne : ¬(Expr.noneE = Expr.noneE ∧
                resolvedShapeEmpty st s n (sc.lookup n) = true) := by
              rintro ⟨_, hc2⟩
              rw [hne] at hc2
              exact absurd hc2 (by simp)
            rw [if_neg hdne] at hdisp
            exact hdisp
  | noneE =>
      rw [show variantConsistent st Expr.noneE = false from rfl] at hW
      exact absurd hW (by simp)
  | intLit a b =>
      rw [show variantConsistent st (Expr.intLit a b) = false from rfl] at hW
      exact absurd hW (by simp)
  | floatLit a b =>
      rw [show variantConsistent st (Expr.floatLit a b) = false from rfl] at hW
      exact absurd hW (by simp)
  | logicLit a =>
      rw [show variantConsistent st (Expr.logicLit a) = false from rfl] at hW
      exact absurd hW (by simp)
  | stringLit a =>
      rw [show variantConsistent st (Expr.stringLit a) = false from rfl] at hW
      exact absurd hW (by simp)
  | rangeE a b c e =>
      rw [show variantConsistent st (Expr.rangeE a b c e) = false from rfl] at hW
      exact absurd hW (by simp)
  | arraySubscript a =>
      rw [show variantConsistent st (Expr.arraySubscript a) = false from rfl] at hW
      exact absurd hW (by simp)

/-- C7 (witness): cloning a factory-style scalar bound to a live scope
reproduces a structurally equal node. -/
theorem clone_no_overrides_equal_witness :
    (Expr.scalar "a" 0 .noneE .noneE : Expr) = Expr.scalar "a" 0 .noneE .noneE :=
  clone_no_overrides_equal 2 exIntScalar
    (Expr.scalar "a" 0 .noneE .noneE) (Expr.scalar "a" 0 .noneE .noneE)
    exIntScalar (by decide) (by decide)

end LokiSym
